import Mathlib

/-!
Verification of the Repository Tree Crawler & Analysis Session Manager of
Github_Repo_Analyzer, a shallow embedding of src/server/routes/github.js.

The embedding models:
- the session registry `activeAnalyses` (a JS `Map`, insertion-ordered) as an
  association list `SessionMap`;
- the upstream GitHub contents API as an inductive tree `RemoteEntry`, where a
  directory carries the listing that the API returns for its path (`none`
  models a fetch that rejects);
- the recursive crawler `buildFileTreeWithCancellation` (lines 60-168) and the
  loop over a directory listing, as a pair of mutually recursive functions,
  structurally recursive on a `fuel` argument so that they evaluate by kernel
  reduction; `fuel = 0` models a JS stack overflow, which never happens on the
  finite trees used in the theorems;
- the `/analyze` route handler (lines 174-225) as `analyze`, and the
  `/analyze/cancel` route handler (lines 228-244) as `cancelRoute`;
- JS exceptions as `Except String`, with every level of the crawler wrapping
  the message in "GitHub API error: " exactly as the catch on line 166 does;
- the fact that a queued /analyze/cancel request is processed by the Node
  event loop only while an upstream fetch of the crawl is in flight (the
  fetches are the crawl task's only suspension points) by an optional pending
  cancellation `(n, userId)` in `CrawlState` that takes effect during the
  n-th fetch of the crawl.
-/

/-- One value of the `activeAnalyses` map: created on line 196 as
`{ cancelled: false, progress: 0 }` and extended by the crawler on lines
70-75 with `currentDepth` and `currentPath` (absent fields read as their
defaults). -/
structure Session where
  cancelled : Bool
  progress : Nat
  currentDepth : Nat
  currentPath : String
  deriving Repr, DecidableEq

/-- The `activeAnalyses` JS `Map`, insertion-ordered. -/
abbrev SessionMap := List (String × Session)

/-- `Map.prototype.get`. -/
def mapGet (m : SessionMap) (k : String) : Option Session :=
  match m.find? (fun p => p.1 == k) with
  | some p => some p.2
  | none => none

/-- `Map.prototype.set`: overwrites in place if the key exists, appends
otherwise. -/
def mapSet (m : SessionMap) (k : String) (v : Session) : SessionMap :=
  if (m.find? (fun p => p.1 == k)).isSome then
    m.map (fun p => if p.1 == k then (k, v) else p)
  else m ++ [(k, v)]

/-- `Map.prototype.delete`. -/
def mapDelete (m : SessionMap) (k : String) : SessionMap :=
  m.filter (fun p => !(p.1 == k))

/-- JS `String.prototype.startsWith`: prefix test on the character
sequences. -/
def strStartsWith (s p : String) : Bool :=
  p.data.isPrefixOf s.data

/-- The loop of the /analyze/cancel handler, lines 233-237: sets
`cancelled = true` on every entry whose key starts with the requesting
user's id. -/
def applyCancel (userId : String) (m : SessionMap) : SessionMap :=
  m.map (fun p =>
    if strStartsWith p.1 userId then (p.1, { p.2 with cancelled := true }) else p)

/-- The /analyze/cancel route handler (lines 228-244); its response is always
the same acknowledgement, so only the registry effect is modelled. -/
def cancelRoute (userId : String) (m : SessionMap) : SessionMap :=
  applyCancel userId m

/-- One entry of an upstream directory listing, together with (for a
directory) the listing the upstream API would return for its path; `none`
models a fetch of that path rejecting. -/
inductive RemoteEntry where
  | file (name path url : String) (size : Option Nat) : RemoteEntry
  | dir (name path : String) (listing : Option (List RemoteEntry)) : RemoteEntry

/-- `item.name`. -/
def RemoteEntry.name : RemoteEntry → String
  | .file n _ _ _ => n
  | .dir n _ _ => n

/-- `item.path`. -/
def RemoteEntry.path : RemoteEntry → String
  | .file _ p _ _ => p
  | .dir _ p _ => p

/-- The exact-name skip patterns of lines 104-108 (those without `*`). -/
def skipExactPatterns : List String :=
  ["node_modules", ".git", "dist", "build", ".next", ".nuxt",
   "coverage", ".nyc_output", ".cache", ".parcel-cache"]

/-- The wildcard skip patterns of line 107. -/
def skipWildcardPatterns : List String :=
  ["*.log", "*.lock", "*.min.js", "*.min.css", "*.map"]

/-- One regex character match: in the JS code the pattern string is turned
into a RegExp verbatim, so its dots are metacharacters matching any
character. -/
def charMatch (p c : Char) : Bool :=
  p == '.' || p == c

/-- Match the pattern characters against a prefix of the string. -/
def matchHere : List Char → List Char → Bool
  | [], _ => true
  | _ :: _, [] => false
  | p :: ps, c :: cs => charMatch p c && matchHere ps cs

/-- Unanchored regex search, as `RegExp.prototype.test` performs: the
pattern may match starting at any position. The JS code turns a wildcard
pattern such as `*.log` into the regex `.*.log`; the leading `.*` is
absorbed by the unanchored search, leaving the remaining characters (with
`.` as a metacharacter) to match at some position. -/
def regexSearch (ps : List Char) : List Char → Bool
  | [] => matchHere ps []
  | c :: cs => matchHere ps (c :: cs) || regexSearch ps cs

/-- `shouldSkip` of lines 117-123: a wildcard pattern is tested as the
unanchored regex obtained by replacing its `*` with `.*`, any other pattern
by exact equality. -/
def shouldSkip (name : String) : Bool :=
  skipExactPatterns.any (fun p => name == p) ||
  skipWildcardPatterns.any (fun p => regexSearch (p.data.drop 1) name.data)

/-- Lines 69 and 72: `Math.round(Math.min((depth / maxDepth) * 100, 100))`.
The value `(depth / maxDepth) * 100` is the exact rational
`100 * depth / maxDepth` (for the depths and bounds the route can produce,
between 1 and 20, the double computation rounds to the same integer);
`Math.min` picks the smaller operand and `Math.round` on a non-negative
value is `⌊x + 1/2⌋`, so `Math.round(100 * d / m)` is the integer division
`(200 * d + m) / (2 * m)`. The comparison `100 * d ≤ 100 * m` is
`(d / m) * 100 ≤ 100`, i.e. the case in which `Math.min` keeps the left
operand (so for `m = 0`, where the JS quotient is `Infinity` for `d > 0`,
the else branch gives 100, as JS does). The theorem
`jsProgress_eq_floor_min` below checks this definition against the rational
`⌊min (d / m * 100) 100 + 1/2⌋` verbatim. -/
def jsProgress (depth maxDepth : Nat) : Nat :=
  if 100 * depth ≤ 100 * maxDepth then (200 * depth + maxDepth) / (2 * maxDepth)
  else 100

/-- One node of the tree built by the crawler. Fields that the JS object may
lack (`path`, `download_url`, `size`, `depth`, `message`) are `Option`s; a
missing `truncated` reads as `false`, matching JS truthiness. -/
inductive TreeNode where
  | mk (name : String) (isFile : Bool) (path : Option String)
      (download_url : Option String) (size : Option Nat) (depth : Option Nat)
      (truncated : Bool) (message : Option String)
      (children : List TreeNode) : TreeNode

def TreeNode.name : TreeNode → String
  | .mk n _ _ _ _ _ _ _ _ => n

def TreeNode.isFile : TreeNode → Bool
  | .mk _ f _ _ _ _ _ _ _ => f

def TreeNode.path : TreeNode → Option String
  | .mk _ _ p _ _ _ _ _ _ => p

def TreeNode.download_url : TreeNode → Option String
  | .mk _ _ _ u _ _ _ _ _ => u

def TreeNode.size : TreeNode → Option Nat
  | .mk _ _ _ _ s _ _ _ _ => s

def TreeNode.depth : TreeNode → Option Nat
  | .mk _ _ _ _ _ d _ _ _ => d

def TreeNode.truncated : TreeNode → Bool
  | .mk _ _ _ _ _ _ t _ _ => t

def TreeNode.message : TreeNode → Option String
  | .mk _ _ _ _ _ _ _ m _ => m

def TreeNode.children : TreeNode → List TreeNode
  | .mk _ _ _ _ _ _ _ _ c => c

/-- The state threaded through a crawl: the shared `activeAnalyses` registry,
the number of upstream fetches performed so far, an optional /analyze/cancel
request queued to be processed during the n-th fetch, and two instrumentation
logs: the paths fetched and the `(currentDepth, progress)` pairs written to
the session, both in order. -/
structure CrawlState where
  sessions : SessionMap
  fetchCount : Nat
  pendingCancel : Option (Nat × String)
  fetched : List String
  progressLog : List (Nat × Nat)

/-- Lines 63 and 112: `analysisId && activeAnalyses.get(analysisId)?.cancelled`. -/
def isCancelled (st : CrawlState) (analysisId : Option String) : Bool :=
  match analysisId with
  | some id =>
    match mapGet st.sessions id with
    | some s => s.cancelled
    | none => false
  | none => false

/-- Lines 69-75: compute the progress and write it into the session (the
spread keeps the existing `cancelled` flag). The write is also appended to
the instrumentation log. -/
def updateProgress (st : CrawlState) (id : String) (depth maxDepth : Nat)
    (path : String) : CrawlState :=
  let p := jsProgress depth maxDepth
  let prev := mapGet st.sessions id
  let s : Session :=
    { cancelled := (prev.map Session.cancelled).getD false
      progress := p
      currentDepth := depth
      currentPath := path }
  { st with
    sessions := mapSet st.sessions id s
    progressLog := st.progressLog ++ [(depth, p)] }

/-- Lines 89-93: perform the upstream fetch for `path`. The fetch is a
suspension point of the crawl task: if a cancel request is pending for this
fetch, the /analyze/cancel handler runs while the fetch is in flight. -/
def doFetch (st : CrawlState) (path : String) : CrawlState :=
  let st' := { st with
    fetchCount := st.fetchCount + 1
    fetched := st.fetched ++ [path] }
  match st'.pendingCancel with
  | some (n, u) =>
    if n ≤ st'.fetchCount then
      { st' with sessions := applyCancel u st'.sessions, pendingCancel := none }
    else st'
  | none => st'

/-- Lines 67-76 as one step: update the session's progress fields when an
analysis id is present and `depth > 0`, otherwise leave the state alone. -/
def progressStep (st : CrawlState) (analysisId : Option String)
    (depth maxDepth : Nat) (path : String) : CrawlState :=
  match analysisId with
  | some id => if depth > 0 then updateProgress st id depth maxDepth path else st
  | none => st

mutual

/-- `buildFileTreeWithCancellation` of lines 60-168. `listing` is the
upstream response for `path` (`none`: the axios call rejects). Any error
escaping the body is wrapped in "GitHub API error: " by the catch on line
166, including errors already wrapped by a deeper recursive call. -/
def buildFileTreeWithCancellation (fuel : Nat)
    (listing : Option (List RemoteEntry)) (repo path : String)
    (analysisId : Option String) (depth maxDepth : Nat)
    (st : CrawlState) : Except String TreeNode × CrawlState :=
  match fuel with
  | 0 => (.error "Maximum call stack size exceeded", st)
  | fuel + 1 =>
    -- lines 62-65: the throw is wrapped by this level's catch
    if isCancelled st analysisId then
      (.error "GitHub API error: Analysis cancelled by user", st)
    else
      -- lines 67-76
      let st := progressStep st analysisId depth maxDepth path
      -- lines 78-87: the truncated return has no depth field
      if depth > maxDepth then
        (.ok (TreeNode.mk (if path == "" then repo else path) false none none
          none none true
          (some ("Maximum depth (" ++ toString maxDepth ++ ") reached")) []), st)
      else
        let st := doFetch st path
        match listing with
        | none => (.error "GitHub API error: Network Error", st)
        | some items =>
          match crawlLoop fuel items repo analysisId depth maxDepth st with
          | (.error e, st) => (.error ("GitHub API error: " ++ e), st)
          | (.ok children, st) =>
            (.ok (TreeNode.mk (if path == "" then repo else path) false none
              none none (some depth) false none children), st)
termination_by structural fuel

/-- The `for (const item of items)` loop of lines 110-162, returning the
accumulated `tree.children`. Errors are returned unwrapped: the enclosing
`buildFileTreeWithCancellation` level wraps them once, as its catch does. -/
def crawlLoop (fuel : Nat) (items : List RemoteEntry) (repo : String)
    (analysisId : Option String) (depth maxDepth : Nat)
    (st : CrawlState) : Except String (List TreeNode) × CrawlState :=
  match fuel with
  | 0 => (.error "Maximum call stack size exceeded", st)
  | fuel + 1 =>
    match items with
    | [] => (.ok [], st)
    | item :: rest =>
      -- lines 111-114
      if isCancelled st analysisId then
        (.error "Analysis cancelled by user", st)
      -- lines 116-127
      else if shouldSkip item.name then
        crawlLoop fuel rest repo analysisId depth maxDepth st
      else
        match item with
        | .dir nm pth sub =>
          -- lines 129-148: recurse, then push a folder node at depth + 1
          match buildFileTreeWithCancellation fuel sub repo pth analysisId
              (depth + 1) maxDepth st with
          | (.error e, st) => (.error e, st)
          | (.ok subTree, st) =>
            match crawlLoop fuel rest repo analysisId depth maxDepth st with
            | (.error e, st) => (.error e, st)
            | (.ok out, st) =>
              (.ok (TreeNode.mk nm false (some pth) none none (some (depth + 1))
                subTree.truncated subTree.message subTree.children :: out), st)
        | .file nm pth url sz =>
          -- lines 149-161: `item.size && item.size < 1024 * 1024`
          let keep :=
            match sz with
            | some s => s != 0 && s < 1024 * 1024
            | none => false
          match crawlLoop fuel rest repo analysisId depth maxDepth st with
          | (.error e, st) => (.error e, st)
          | (.ok out, st) =>
            if keep then
              (.ok (TreeNode.mk nm true (some pth) (some url) sz (some depth)
                false none [] :: out), st)
            else (.ok out, st)
termination_by structural fuel

end

/-- Line 183: `Math.min(Math.max(parseInt(maxDepth) || 15, 1), 20)`.
`none` models a missing field or one whose parseInt is NaN; `some 0` is
falsy, so it also falls back to 15. -/
def clampDepth (raw : Option Int) : Nat :=
  let v : Int :=
    match raw with
    | none => 15
    | some i => if i == 0 then 15 else i
  (min (max v 1) 20).toNat

/-- The three response shapes of the /analyze handler that are reachable
after URL validation: the 200 of line 212, the 499 of line 206 and the 500
of lines 220-223. -/
inductive AnalyzeResponse where
  | ok (tree : TreeNode)
  | cancelled (msg : String)
  | serverError (msg err : String)

/-- Result of one /analyze request: the HTTP response, the state of
`activeAnalyses` afterwards, whether `Repository.create` (line 210) was
invoked, and the instrumentation logs of the crawl. -/
structure AnalyzeResult where
  response : AnalyzeResponse
  sessions : SessionMap
  createCalled : Bool
  fetched : List String
  progressLog : List (Nat × Nat)

/-- The /analyze route handler, lines 174-225, from line 194 on (the URL has
been parsed; `repo` is the repository name, `env` the upstream listing of
its root, `user` the authenticated user id and `now` the `Date.now()`
timestamp of line 195). `pendingCancel` models an /analyze/cancel request
that the event loop processes during the given fetch of the crawl. -/
def analyze (fuel : Nat) (env : Option (List RemoteEntry)) (repo user now : String)
    (maxDepthRaw : Option Int) (pendingCancel : Option (Nat × String))
    (st0 : SessionMap) : AnalyzeResult :=
  let depth := clampDepth maxDepthRaw
  -- lines 195-196
  let analysisId := user ++ "-" ++ now
  let st1 := mapSet st0 analysisId ⟨false, 0, 0, ""⟩
  let cst : CrawlState := ⟨st1, 0, pendingCancel, [], []⟩
  -- line 199
  match buildFileTreeWithCancellation fuel env repo "" (some analysisId) 0 depth cst with
  | (.error e, cst') =>
    -- lines 218-224: the generic catch; the session is not removed here
    ⟨.serverError "Failed to analyze repository" e, cst'.sessions, false,
      cst'.fetched, cst'.progressLog⟩
  | (.ok tree, cst') =>
    -- line 202: the session is deleted before the check on line 205
    let st2 := mapDelete cst'.sessions analysisId
    -- lines 204-207
    if (match mapGet st2 analysisId with
        | some s => s.cancelled
        | none => false) then
      ⟨.cancelled "Analysis cancelled by user", st2, false,
        cst'.fetched, cst'.progressLog⟩
    else
      -- lines 209-217
      ⟨.ok tree, st2, true, cst'.fetched, cst'.progressLog⟩

mutual

/-- Fuelled universal quantification over the nodes of a tree (Lean 4.14 does
not compile structural recursion through the nested `List TreeNode`, so the
recursion is on an explicit bound; `treeAllF p fuel t = true` for every
`fuel` says that every node of `t` satisfies `p`). -/
def treeAllF (p : TreeNode → Bool) (fuel : Nat) (t : TreeNode) : Bool :=
  match fuel with
  | 0 => true
  | fuel + 1 => p t && nodesAllF p fuel t.children
termination_by structural fuel

def nodesAllF (p : TreeNode → Bool) (fuel : Nat) (ts : List TreeNode) : Bool :=
  match fuel with
  | 0 => true
  | fuel + 1 =>
    match ts with
    | [] => true
    | t :: rest => treeAllF p fuel t && nodesAllF p fuel rest
termination_by structural fuel

end

mutual

/-- Fuelled existential over the nodes of a tree. -/
def treeAnyF (p : TreeNode → Bool) (fuel : Nat) (t : TreeNode) : Bool :=
  match fuel with
  | 0 => false
  | fuel + 1 => p t || nodesAnyF p fuel t.children
termination_by structural fuel

def nodesAnyF (p : TreeNode → Bool) (fuel : Nat) (ts : List TreeNode) : Bool :=
  match fuel with
  | 0 => false
  | fuel + 1 =>
    match ts with
    | [] => false
    | t :: rest => treeAnyF p fuel t || nodesAnyF p fuel rest
termination_by structural fuel

end

/-- All nodes of a crawl result satisfy `p` (vacuously true if the crawl
threw). -/
def crawlResultAll (p : TreeNode → Bool) (pf : Nat)
    (r : Except String TreeNode × CrawlState) : Bool :=
  match r.1 with
  | .ok t => treeAllF p pf t
  | .error _ => true

/-- Some node of a crawl result satisfies `p`. -/
def crawlResultAny (p : TreeNode → Bool) (pf : Nat)
    (r : Except String TreeNode × CrawlState) : Bool :=
  match r.1 with
  | .ok t => treeAnyF p pf t
  | .error _ => false

/-- Every node of the whole tree satisfies `p`. -/
def TreeOk (p : TreeNode → Bool) (t : TreeNode) : Prop :=
  ∀ f, treeAllF p f t = true

/-- Every node of every tree of the list satisfies `p`. -/
def NodesOk (p : TreeNode → Bool) (ts : List TreeNode) : Prop :=
  ∀ f, nodesAllF p f ts = true

/-- The relation between a directory listing and the `tree.children` list the
loop of lines 110-162 builds from it at depth `k` with bound `m`, abstracting
from session state and cancellation: one constructor per loop branch. -/
inductive LoopRel (m : Nat) : Nat → List RemoteEntry → List TreeNode → Prop where
  | nil (k : Nat) : LoopRel m k [] []
  | skip (k : Nat) {e : RemoteEntry} {rest : List RemoteEntry} {cs : List TreeNode} :
      shouldSkip e.name = true → LoopRel m k rest cs → LoopRel m k (e :: rest) cs
  | fileKeep (k : Nat) {nm pth url : String} {s : Nat} {rest : List RemoteEntry}
      {cs : List TreeNode} :
      shouldSkip nm = false → s ≠ 0 → s < 1024 * 1024 → LoopRel m k rest cs →
      LoopRel m k (.file nm pth url (some s) :: rest)
        (.mk nm true (some pth) (some url) (some s) (some k) false none [] :: cs)
  | fileDrop (k : Nat) {nm pth url : String} {sz : Option Nat}
      {rest : List RemoteEntry} {cs : List TreeNode} :
      shouldSkip nm = false →
      (match sz with
       | some s => s = 0 ∨ 1024 * 1024 ≤ s
       | none => True) →
      LoopRel m k rest cs → LoopRel m k (.file nm pth url sz :: rest) cs
  | dirTrunc (k : Nat) {nm pth : String} {sub : Option (List RemoteEntry)}
      {rest : List RemoteEntry} {cs : List TreeNode} :
      shouldSkip nm = false → m < k + 1 → LoopRel m k rest cs →
      LoopRel m k (.dir nm pth sub :: rest)
        (.mk nm false (some pth) none none (some (k + 1)) true
          (some ("Maximum depth (" ++ toString m ++ ") reached")) [] :: cs)
  | dirRec (k : Nat) {nm pth : String} {subItems : List RemoteEntry}
      {ch : List TreeNode} {rest : List RemoteEntry} {cs : List TreeNode} :
      shouldSkip nm = false → k + 1 ≤ m → LoopRel m (k + 1) subItems ch →
      LoopRel m k rest cs →
      LoopRel m k (.dir nm pth (some subItems) :: rest)
        (.mk nm false (some pth) none none (some (k + 1)) false none ch :: cs)

mutual

/-- Overapproximation of the paths the crawler may fetch for a given listing:
the current path, plus, for every entry that is a directory not matched by a
skip pattern, recursively the paths reachable below it. -/
def fetchablePaths (fuel : Nat) (listing : Option (List RemoteEntry))
    (path : String) : List String :=
  match fuel with
  | 0 => []
  | fuel + 1 =>
    path ::
      (match listing with
       | none => []
       | some items => fetchableLoopPaths fuel items)
termination_by structural fuel

def fetchableLoopPaths (fuel : Nat) (items : List RemoteEntry) : List String :=
  match fuel with
  | 0 => []
  | fuel + 1 =>
    match items with
    | [] => []
    | .file _ _ _ _ :: rest => fetchableLoopPaths fuel rest
    | .dir nm pth sub :: rest =>
      (if shouldSkip nm then [] else fetchablePaths fuel sub pth) ++
        fetchableLoopPaths fuel rest
termination_by structural fuel

end

mutual

/-- All `(name, path)` pairs of directory entries anywhere in a listing,
including inside skipped directories. -/
def allDirsOf (fuel : Nat) (listing : Option (List RemoteEntry)) :
    List (String × String) :=
  match fuel with
  | 0 => []
  | fuel + 1 =>
    match listing with
    | none => []
    | some items => allDirsLoop fuel items
termination_by structural fuel

def allDirsLoop (fuel : Nat) (items : List RemoteEntry) :
    List (String × String) :=
  match fuel with
  | 0 => []
  | fuel + 1 =>
    match items with
    | [] => []
    | .file _ _ _ _ :: rest => allDirsLoop fuel rest
    | .dir nm pth sub :: rest => (nm, pth) :: (allDirsOf fuel sub ++ allDirsLoop fuel rest)
termination_by structural fuel

end

/-- Node predicate for C2: depth bounded by `m + 1`, files bounded by `m`,
and a node at depth `m + 1` is a truncated directory with no children. -/
def depthOkB (m : Nat) (t : TreeNode) : Bool :=
  match t.depth with
  | some j =>
    decide (j ≤ m + 1) && (!(j == m + 1) || (t.truncated && t.children.isEmpty)) &&
      (!t.isFile || decide (j ≤ m))
  | none => !t.isFile && t.truncated && t.children.isEmpty

/-- Node predicate for C3: each child's depth against its parent's. -/
def childDepthOkB (t : TreeNode) : Bool :=
  t.children.all (fun c =>
    c.depth == (if c.isFile then t.depth else t.depth.map (fun j => j + 1)))

/-- Node predicate for C6: the node's name matches no skip pattern. -/
def nameOkB (t : TreeNode) : Bool :=
  !(shouldSkip t.name)

/-- Node predicate for C7: a file node's size is present and below 1 MiB. -/
def fileSizeOkB (t : TreeNode) : Bool :=
  !t.isFile ||
    (match t.size with
     | some s => decide (s < 1024 * 1024)
     | none => false)

/-- Node predicate for C10: a file node's size is present and nonzero. -/
def fileSizeTruthyB (t : TreeNode) : Bool :=
  !t.isFile ||
    (match t.size with
     | some s => s != 0
     | none => false)

/-- A list of naturals is non-decreasing. -/
def isNonDecr : List Nat → Bool
  | [] => true
  | [_] => true
  | a :: b :: rest => decide (a ≤ b) && isNonDecr (b :: rest)

/-- The response is the 200 success of line 212. -/
def AnalyzeResponse.isSuccess : AnalyzeResponse → Bool
  | .ok _ => true
  | _ => false

/-- The response is the 499 distinct cancellation outcome of line 206. -/
def AnalyzeResponse.isCancelledOutcome : AnalyzeResponse → Bool
  | .cancelled _ => true
  | _ => false

theorem nodesAllF_zero (p : TreeNode → Bool) (ts : List TreeNode) :
    nodesAllF p 0 ts = true := rfl

theorem treeOk_mk {p : TreeNode → Bool} {n : String} {f : Bool} {pa u : Option String}
    {s : Option Nat} {d : Option Nat} {tr : Bool} {msg : Option String}
    {cs : List TreeNode} :
    TreeOk p (.mk n f pa u s d tr msg cs) ↔
      p (.mk n f pa u s d tr msg cs) = true ∧ NodesOk p cs := by
  constructor
  · intro h
    refine ⟨?_, fun fl => ?_⟩
    · have h1 := h 1
      simp [treeAllF, nodesAllF, TreeNode.children] at h1
      exact h1
    · have h2 := h (fl + 1)
      simp [treeAllF, TreeNode.children] at h2
      exact h2.2
  · rintro ⟨hp, hcs⟩ fl
    cases fl with
    | zero => rfl
    | succ fl => simp [treeAllF, TreeNode.children, hp, hcs fl]

theorem nodesOk_nil {p : TreeNode → Bool} : NodesOk p [] := by
  intro fl
  cases fl with
  | zero => rfl
  | succ fl => rfl

theorem nodesOk_cons {p : TreeNode → Bool} {t : TreeNode} {ts : List TreeNode} :
    NodesOk p (t :: ts) ↔ TreeOk p t ∧ NodesOk p ts := by
  constructor
  · intro h
    constructor
    · intro fl
      have h1 := h (fl + 1)
      simp [nodesAllF] at h1
      exact h1.1
    · intro fl
      have h1 := h (fl + 1)
      simp [nodesAllF] at h1
      exact h1.2
  · rintro ⟨ht, hts⟩ fl
    cases fl with
    | zero => rfl
    | succ fl => simp [nodesAllF, ht fl, hts fl]

theorem clampDepth_pos (raw : Option Int) : 1 ≤ clampDepth raw := by
  unfold clampDepth
  rcases raw with _ | i
  · simp
  · simp only []
    by_cases h : i == 0
    · simp [h]
    · simp only [h]
      omega

theorem jsProgress_le_100 (d m : Nat) : jsProgress d m ≤ 100 := by
  unfold jsProgress
  by_cases h : 100 * d ≤ 100 * m
  · simp only [h, if_true]
    rcases Nat.eq_zero_or_pos m with hm | hm
    · subst hm
      simp
    · have h2 : 0 < 2 * m := by omega
      have : (200 * d + m) / (2 * m) < 101 := by
        rw [Nat.div_lt_iff_lt_mul h2]
        omega
      omega
  · simp [h]

theorem jsProgress_mono {d1 d2 m : Nat} (h : d1 ≤ d2) :
    jsProgress d1 m ≤ jsProgress d2 m := by
  unfold jsProgress
  by_cases h2 : 100 * d2 ≤ 100 * m
  · have h1 : 100 * d1 ≤ 100 * m := by omega
    simp only [h1, h2, if_true]
    exact Nat.div_le_div_right (by omega)
  · simp only [h2, if_false]
    by_cases h1 : 100 * d1 ≤ 100 * m
    · simp only [h1, if_true]
      rcases Nat.eq_zero_or_pos m with hm | hm
      · subst hm
        simp
      · have hp : 0 < 2 * m := by omega
        have : (200 * d1 + m) / (2 * m) < 101 := by
          rw [Nat.div_lt_iff_lt_mul hp]
          omega
        omega
    · simp [h1]

theorem jsProgress_eq_min {d m : Nat} (hm : 1 ≤ m) :
    jsProgress d m = min 100 ((200 * d + m) / (2 * m)) := by
  unfold jsProgress
  have hp : 0 < 2 * m := by omega
  by_cases h : 100 * d ≤ 100 * m
  · simp only [h, if_true]
    have : (200 * d + m) / (2 * m) < 101 := by
      rw [Nat.div_lt_iff_lt_mul hp]
      omega
    omega
  · simp only [h, if_false]
    have : 100 ≤ (200 * d + m) / (2 * m) := by
      rw [Nat.le_div_iff_mul_le hp]
      omega
    omega

/-- Faithfulness of `jsProgress` to the source expression
`Math.round(Math.min((depth / maxDepth) * 100, 100))`, read over the exact
rationals: `Math.round x = ⌊x + 1/2⌋` for non-negative `x`. -/
theorem jsProgress_eq_floor_min {d m : Nat} (hm : 1 ≤ m) :
    jsProgress d m = (⌊min ((d : ℚ) / (m : ℚ) * 100) 100 + 1 / 2⌋).toNat := by
  have hm0 : (0 : ℚ) < (m : ℚ) := by exact_mod_cast hm
  rw [Int.floor_toNat]
  by_cases h : 100 * d ≤ 100 * m
  · have hdm : (d : ℚ) / (m : ℚ) * 100 ≤ 100 := by
      rw [div_mul_eq_mul_div, div_le_iff₀ hm0]
      have : (d : ℚ) ≤ (m : ℚ) := by exact_mod_cast (by omega : d ≤ m)
      nlinarith
    rw [min_eq_left hdm]
    have heq : (d : ℚ) / (m : ℚ) * 100 + 1 / 2 =
        ((200 * d + m : ℕ) : ℚ) / ((2 * m : ℕ) : ℚ) := by
      field_simp
      ring
    rw [heq, Nat.floor_div_nat, Nat.floor_natCast]
    unfold jsProgress
    rw [if_pos h]
  · have hdm : (100 : ℚ) ≤ (d : ℚ) / (m : ℚ) * 100 := by
      rw [div_mul_eq_mul_div, le_div_iff₀ hm0]
      have : (m : ℚ) ≤ (d : ℚ) := by exact_mod_cast (by omega : m ≤ d)
      nlinarith
    rw [min_eq_right hdm]
    have : ((100 : ℚ) + 1 / 2) = (201 : ℚ) / 2 := by norm_num
    rw [this]
    have h100 : ⌊((201 : ℚ) / 2)⌋₊ = 100 := by
      rw [Nat.floor_eq_iff (by positivity)]
      norm_num
    rw [h100]
    unfold jsProgress
    rw [if_neg h]

theorem crawlSound : ∀ fuel : Nat,
    (∀ listing repo path aid k m st t st',
      buildFileTreeWithCancellation fuel listing repo path aid k m st = (.ok t, st') →
      (m < k ∧ t = TreeNode.mk (if path == "" then repo else path) false none none
          none none true (some ("Maximum depth (" ++ toString m ++ ") reached")) []) ∨
      (k ≤ m ∧ ∃ items cs, listing = some items ∧ LoopRel m k items cs ∧
        t = TreeNode.mk (if path == "" then repo else path) false none none none
          (some k) false none cs)) ∧
    (∀ items repo aid k m st cs st',
      crawlLoop fuel items repo aid k m st = (.ok cs, st') →
      LoopRel m k items cs) := by
  intro fuel
  induction fuel with
  | zero =>
    constructor
    · intro listing repo path aid k m st t st' h
      simp [buildFileTreeWithCancellation] at h
    · intro items repo aid k m st cs st' h
      simp [crawlLoop] at h
  | succ fuel ih =>
    obtain ⟨ihA, ihB⟩ := ih
    constructor
    · intro listing repo path aid k m st t st' h
      simp only [buildFileTreeWithCancellation] at h
      split at h
      · -- cancelled at entry: error, contradiction
        simp at h
      · -- not cancelled
        split at h
        · -- k > m: truncated node returned
          rename_i hkm
          left
          simp only [Prod.mk.injEq, Except.ok.injEq] at h
          exact ⟨by omega, h.1.symm⟩
        · -- k ≤ m: fetch and loop
          rename_i hkm
          right
          refine ⟨by omega, ?_⟩
          split at h
          · -- listing none: error
            simp at h
          · -- listing some items
            rename_i items
            split at h
            · -- loop errored
              simp at h
            · -- loop ok
              rename_i children st2 heq
              simp only [Prod.mk.injEq, Except.ok.injEq] at h
              exact ⟨items, children, rfl, ihB _ _ _ _ _ _ _ _ heq, h.1.symm⟩
    · intro items repo aid k m st cs st' h
      simp only [crawlLoop] at h
      split at h
      · -- items = []
        simp only [Prod.mk.injEq, Except.ok.injEq] at h
        rw [← h.1]
        exact LoopRel.nil k
      · -- items = item :: rest
        rename_i item rest
        split at h
        · -- cancelled mid-loop: error
          simp at h
        · split at h
          · -- skip branch
            rename_i hskip
            exact LoopRel.skip k hskip (ihB _ _ _ _ _ _ _ _ h)
          · -- kept entry
            rename_i hskip
            split at h
            · -- directory entry
              rename_i nm pth sub
              split at h
              · -- sub-crawl errored
                simp at h
              · rename_i subTree st2 heqSub
                split at h
                · -- rest of the loop errored
                  simp at h
                · rename_i out st3 heqRest
                  simp only [Prod.mk.injEq, Except.ok.injEq] at h
                  rw [← h.1]
                  have hrest := ihB _ _ _ _ _ _ _ _ heqRest
                  have hskip2 : shouldSkip nm = false := by
                    simpa [RemoteEntry.name] using hskip
                  rcases ihA _ _ _ _ _ _ _ _ _ heqSub with ⟨hmk, hsub⟩ |
                    ⟨hkm, items2, cs2, hlist, hrel, hsub⟩
                  · subst hsub
                    simp only [TreeNode.truncated, TreeNode.message, TreeNode.children]
                    exact LoopRel.dirTrunc k hskip2 (by omega) hrest
                  · subst hlist
                    subst hsub
                    simp only [TreeNode.truncated, TreeNode.message, TreeNode.children]
                    exact LoopRel.dirRec k hskip2 hkm hrel hrest
            · -- file entry
              rename_i nm pth url sz
              split at h
              · -- rest of the loop errored
                simp at h
              · rename_i out st2 heqRest
                have hrest := ihB _ _ _ _ _ _ _ _ heqRest
                have hskip2 : shouldSkip nm = false := by
                  simpa [RemoteEntry.name] using hskip
                split at h
                · -- kept file
                  rename_i hkeep
                  rcases sz with _ | s
                  · simp at hkeep
                  · simp only [Prod.mk.injEq, Except.ok.injEq] at h
                    rw [← h.1]
                    simp only [bne_iff_ne, ne_eq, Bool.and_eq_true, decide_eq_true_eq] at hkeep
                    exact LoopRel.fileKeep k hskip2 hkeep.1 hkeep.2 hrest
                · -- dropped file
                  rename_i hkeep
                  simp only [Prod.mk.injEq, Except.ok.injEq] at h
                  rw [← h.1]
                  refine LoopRel.fileDrop k hskip2 ?_ hrest
                  rcases sz with _ | s
                  · trivial
                  · simp only [bne_iff_ne, ne_eq, Bool.and_eq_true, decide_eq_true_eq,
                      not_and] at hkeep
                    omega

theorem loopRel_depthOk {m k : Nat} {items : List RemoteEntry} {cs : List TreeNode}
    (h : LoopRel m k items cs) : k ≤ m → NodesOk (depthOkB m) cs := by
  induction h with
  | nil k => exact fun _ => nodesOk_nil
  | skip k hs hr ih => exact ih
  | fileKeep k hs h0 hlt hr ih =>
    intro hk
    rw [nodesOk_cons]
    refine ⟨?_, ih hk⟩
    rw [treeOk_mk]
    refine ⟨?_, nodesOk_nil⟩
    simp only [depthOkB, TreeNode.depth, TreeNode.isFile, TreeNode.truncated,
      TreeNode.children]
    simp
    omega
  | fileDrop k hs hcond hr ih => exact ih
  | dirTrunc k hs hmk hr ih =>
    intro hk
    rw [nodesOk_cons]
    refine ⟨?_, ih hk⟩
    rw [treeOk_mk]
    refine ⟨?_, nodesOk_nil⟩
    simp only [depthOkB, TreeNode.depth, TreeNode.isFile, TreeNode.truncated,
      TreeNode.children]
    simp
    omega
  | dirRec k hs hkm hsub hr ihsub ih =>
    intro hk
    rw [nodesOk_cons]
    refine ⟨?_, ih hk⟩
    rw [treeOk_mk]
    refine ⟨?_, ihsub hkm⟩
    simp only [depthOkB, TreeNode.depth, TreeNode.isFile, TreeNode.truncated,
      TreeNode.children]
    simp
    omega

theorem loopRel_childDepth {m k : Nat} {items : List RemoteEntry} {cs : List TreeNode}
    (h : LoopRel m k items cs) :
    NodesOk childDepthOkB cs ∧
      ∀ c ∈ cs, c.depth = some (if c.isFile then k else k + 1) := by
  induction h with
  | nil k => exact ⟨nodesOk_nil, by simp⟩
  | skip k hs hr ih => exact ih
  | fileKeep k hs h0 hlt hr ih =>
    refine ⟨?_, ?_⟩
    · rw [nodesOk_cons]
      refine ⟨?_, ih.1⟩
      rw [treeOk_mk]
      refine ⟨?_, nodesOk_nil⟩
      rfl
    · intro c hc
      rcases List.mem_cons.1 hc with hc | hc
      · subst hc
        simp [TreeNode.depth, TreeNode.isFile]
      · exact ih.2 c hc
  | fileDrop k hs hcond hr ih => exact ih
  | dirTrunc k hs hmk hr ih =>
    refine ⟨?_, ?_⟩
    · rw [nodesOk_cons]
      refine ⟨?_, ih.1⟩
      rw [treeOk_mk]
      refine ⟨?_, nodesOk_nil⟩
      rfl
    · intro c hc
      rcases List.mem_cons.1 hc with hc | hc
      · subst hc
        simp [TreeNode.depth, TreeNode.isFile]
      · exact ih.2 c hc
  | dirRec k hs hkm hsub hr ihsub ih =>
    refine ⟨?_, ?_⟩
    · rw [nodesOk_cons]
      refine ⟨?_, ih.1⟩
      rw [treeOk_mk]
      refine ⟨?_, ihsub.1⟩
      simp only [childDepthOkB, TreeNode.children, TreeNode.depth, List.all_eq_true]
      intro c hc
      have hd := ihsub.2 c hc
      cases c with
      | mk cn cf cp cu csz cd ct cmsg cch =>
        simp only [TreeNode.depth, TreeNode.isFile] at hd
        cases cf with
        | true =>
          simp at hd
          simp [TreeNode.isFile, TreeNode.depth, hd]
        | false =>
          simp at hd
          simp [TreeNode.isFile, TreeNode.depth, hd]
    · intro c hc
      rcases List.mem_cons.1 hc with hc | hc
      · subst hc
        simp [TreeNode.depth, TreeNode.isFile]
      · exact ih.2 c hc

theorem loopRel_names {m k : Nat} {items : List RemoteEntry} {cs : List TreeNode}
    (h : LoopRel m k items cs) : NodesOk nameOkB cs := by
  induction h with
  | nil k => exact nodesOk_nil
  | skip k hs hr ih => exact ih
  | fileKeep k hs h0 hlt hr ih =>
    rw [nodesOk_cons]
    refine ⟨?_, ih⟩
    rw [treeOk_mk]
    exact ⟨by simp [nameOkB, TreeNode.name, hs], nodesOk_nil⟩
  | fileDrop k hs hcond hr ih => exact ih
  | dirTrunc k hs hmk hr ih =>
    rw [nodesOk_cons]
    refine ⟨?_, ih⟩
    rw [treeOk_mk]
    exact ⟨by simp [nameOkB, TreeNode.name, hs], nodesOk_nil⟩
  | dirRec k hs hkm hsub hr ihsub ih =>
    rw [nodesOk_cons]
    refine ⟨?_, ih⟩
    rw [treeOk_mk]
    exact ⟨by simp [nameOkB, TreeNode.name, hs], ihsub⟩

theorem loopRel_fileSize {m k : Nat} {items : List RemoteEntry} {cs : List TreeNode}
    (h : LoopRel m k items cs) : NodesOk fileSizeOkB cs := by
  induction h with
  | nil k => exact nodesOk_nil
  | skip k hs hr ih => exact ih
  | fileKeep k hs h0 hlt hr ih =>
    rw [nodesOk_cons]
    refine ⟨?_, ih⟩
    rw [treeOk_mk]
    refine ⟨?_, nodesOk_nil⟩
    simp [fileSizeOkB, TreeNode.isFile, TreeNode.size, hlt]
  | fileDrop k hs hcond hr ih => exact ih
  | dirTrunc k hs hmk hr ih =>
    rw [nodesOk_cons]
    refine ⟨?_, ih⟩
    rw [treeOk_mk]
    exact ⟨by simp [fileSizeOkB, TreeNode.isFile], nodesOk_nil⟩
  | dirRec k hs hkm hsub hr ihsub ih =>
    rw [nodesOk_cons]
    refine ⟨?_, ih⟩
    rw [treeOk_mk]
    exact ⟨by simp [fileSizeOkB, TreeNode.isFile], ihsub⟩

theorem loopRel_fileTruthy {m k : Nat} {items : List RemoteEntry} {cs : List TreeNode}
    (h : LoopRel m k items cs) : NodesOk fileSizeTruthyB cs := by
  induction h with
  | nil k => exact nodesOk_nil
  | skip k hs hr ih => exact ih
  | fileKeep k hs h0 hlt hr ih =>
    rw [nodesOk_cons]
    refine ⟨?_, ih⟩
    rw [treeOk_mk]
    refine ⟨?_, nodesOk_nil⟩
    simp [fileSizeTruthyB, TreeNode.isFile, TreeNode.size, h0]
  | fileDrop k hs hcond hr ih => exact ih
  | dirTrunc k hs hmk hr ih =>
    rw [nodesOk_cons]
    refine ⟨?_, ih⟩
    rw [treeOk_mk]
    exact ⟨by simp [fileSizeTruthyB, TreeNode.isFile], nodesOk_nil⟩
  | dirRec k hs hkm hsub hr ihsub ih =>
    rw [nodesOk_cons]
    refine ⟨?_, ih⟩
    rw [treeOk_mk]
    exact ⟨by simp [fileSizeTruthyB, TreeNode.isFile], ihsub⟩

theorem loopRel_truncAppears {m k : Nat} {items : List RemoteEntry} {cs : List TreeNode}
    (h : LoopRel m k items cs) :
    ∀ nm pth sub, RemoteEntry.dir nm pth sub ∈ items → shouldSkip nm = false →
      m < k + 1 →
      TreeNode.mk nm false (some pth) none none (some (k + 1)) true
        (some ("Maximum depth (" ++ toString m ++ ") reached")) [] ∈ cs := by
  induction h with
  | nil k =>
    intro nm pth sub he hns hk
    simp at he
  | skip k hs hr ih =>
    intro nm pth sub he hns hk
    rcases List.mem_cons.1 he with he1 | he1
    · rw [← he1] at hs
      simp [RemoteEntry.name] at hs
      rw [hs] at hns
      simp at hns
    · exact ih nm pth sub he1 hns hk
  | fileKeep k hs h0 hlt hr ih =>
    intro nm pth sub he hns hk
    rcases List.mem_cons.1 he with he1 | he1
    · simp at he1
    · exact List.mem_cons_of_mem _ (ih nm pth sub he1 hns hk)
  | fileDrop k hs hcond hr ih =>
    intro nm pth sub he hns hk
    rcases List.mem_cons.1 he with he1 | he1
    · simp at he1
    · exact ih nm pth sub he1 hns hk
  | dirTrunc k hs hmk hr ih =>
    intro nm pth sub he hns hk
    rcases List.mem_cons.1 he with he1 | he1
    · rw [RemoteEntry.dir.injEq] at he1
      obtain ⟨h1, h2, h3⟩ := he1
      subst h1
      subst h2
      exact List.mem_cons_self _ _
    · exact List.mem_cons_of_mem _ (ih nm pth sub he1 hns hk)
  | dirRec k hs hkm hsub hr ihsub ih =>
    intro nm pth sub he hns hk
    rcases List.mem_cons.1 he with he1 | he1
    · rw [RemoteEntry.dir.injEq] at he1
      omega
    · exact List.mem_cons_of_mem _ (ih nm pth sub he1 hns hk)

theorem st1_facts (aid : Option String) (k m : Nat) (path : String) (st : CrawlState) :
    (progressStep st aid k m path).fetched = st.fetched ∧
    (progressStep st aid k m path).pendingCancel = st.pendingCancel ∧
    ∀ x, x ∈ (progressStep st aid k m path).progressLog →
      x ∈ st.progressLog ∨ (x.2 = jsProgress x.1 m ∧ 1 ≤ x.1) := by
  unfold progressStep
  rcases aid with _ | id
  · exact ⟨rfl, rfl, fun x hx => Or.inl hx⟩
  · dsimp only
    by_cases hk0 : k > 0
    · rw [if_pos hk0]
      refine ⟨rfl, rfl, fun x hx => ?_⟩
      simp only [updateProgress, List.mem_append, List.mem_singleton] at hx
      rcases hx with hx | hx
      · exact Or.inl hx
      · subst hx
        exact Or.inr ⟨rfl, hk0⟩
    · rw [if_neg hk0]
      exact ⟨rfl, rfl, fun x hx => Or.inl hx⟩

theorem doFetch_fetched (st : CrawlState) (p : String) :
    (doFetch st p).fetched = st.fetched ++ [p] := by
  unfold doFetch
  dsimp only
  split
  · split
    · rfl
    · rfl
  · rfl

theorem doFetch_progressLog (st : CrawlState) (p : String) :
    (doFetch st p).progressLog = st.progressLog := by
  unfold doFetch
  dsimp only
  split
  · split
    · rfl
    · rfl
  · rfl

theorem crawlState : ∀ fuel : Nat,
    (∀ listing repo path aid k m st,
      (∀ q, q ∈ (buildFileTreeWithCancellation fuel listing repo path aid k m st).2.fetched →
        q ∈ st.fetched ∨ q ∈ fetchablePaths fuel listing path) ∧
      (∀ x, x ∈ (buildFileTreeWithCancellation fuel listing repo path aid k m st).2.progressLog →
        x ∈ st.progressLog ∨ (x.2 = jsProgress x.1 m ∧ 1 ≤ x.1))) ∧
    (∀ items repo aid k m st,
      (∀ q, q ∈ (crawlLoop fuel items repo aid k m st).2.fetched →
        q ∈ st.fetched ∨ q ∈ fetchableLoopPaths fuel items) ∧
      (∀ x, x ∈ (crawlLoop fuel items repo aid k m st).2.progressLog →
        x ∈ st.progressLog ∨ (x.2 = jsProgress x.1 m ∧ 1 ≤ x.1))) := by
  intro fuel
  induction fuel with
  | zero =>
    constructor
    · intro listing repo path aid k m st
      simp only [buildFileTreeWithCancellation]
      exact ⟨fun q hq => Or.inl hq, fun x hx => Or.inl hx⟩
    · intro items repo aid k m st
      simp only [crawlLoop]
      exact ⟨fun q hq => Or.inl hq, fun x hx => Or.inl hx⟩
  | succ fuel ih =>
    obtain ⟨ihA, ihB⟩ := ih
    constructor
    · intro listing repo path aid k m st
      obtain ⟨hf1, _, hp1⟩ := st1_facts aid k m path st
      rcases hB : buildFileTreeWithCancellation (fuel + 1) listing repo path aid k m st
        with ⟨res, stF⟩
      simp only [buildFileTreeWithCancellation] at hB
      split at hB
      · -- cancelled at entry
        simp only [Prod.mk.injEq] at hB
        rw [← hB.2]
        exact ⟨fun q hq => Or.inl hq, fun x hx => Or.inl hx⟩
      · split at hB
        · -- truncated return
          simp only [Prod.mk.injEq] at hB
          rw [← hB.2]
          exact ⟨fun q hq => Or.inl (hf1 ▸ hq), fun x hx => hp1 x hx⟩
        · -- fetch happens
          split at hB
          · -- listing = none
            simp only [Prod.mk.injEq] at hB
            rw [← hB.2]
            rw [doFetch_fetched, doFetch_progressLog]
            constructor
            · intro q hq
              rw [List.mem_append, List.mem_singleton] at hq
              rcases hq with hq | hq
              · exact Or.inl (hf1 ▸ hq)
              · subst hq
                right
                simp [fetchablePaths]
            · exact fun x hx => hp1 x hx
          · -- listing = some items
            rename_i items
            split at hB
            · -- loop errored
              rename_i e stL heq
              simp only [Prod.mk.injEq] at hB
              rw [← hB.2]
              have hIH := ihB items repo aid k m
                (doFetch (progressStep st aid k m path) path)
              rw [heq] at hIH
              constructor
              · intro q hq
                rcases hIH.1 q hq with hq2 | hq2
                · rw [doFetch_fetched, List.mem_append, List.mem_singleton] at hq2
                  rcases hq2 with hq3 | hq3
                  · exact Or.inl (hf1 ▸ hq3)
                  · subst hq3
                    right
                    simp [fetchablePaths]
                · right
                  simp [fetchablePaths]
                  right
                  exact hq2
              · intro x hx
                rcases hIH.2 x hx with hx2 | hx2
                · rw [doFetch_progressLog] at hx2
                  exact hp1 x hx2
                · exact Or.inr hx2
            · -- loop succeeded
              rename_i cs stL heq
              simp only [Prod.mk.injEq] at hB
              rw [← hB.2]
              have hIH := ihB items repo aid k m
                (doFetch (progressStep st aid k m path) path)
              rw [heq] at hIH
              constructor
              · intro q hq
                rcases hIH.1 q hq with hq2 | hq2
                · rw [doFetch_fetched, List.mem_append, List.mem_singleton] at hq2
                  rcases hq2 with hq3 | hq3
                  · exact Or.inl (hf1 ▸ hq3)
                  · subst hq3
                    right
                    simp [fetchablePaths]
                · right
                  simp [fetchablePaths]
                  right
                  exact hq2
              · intro x hx
                rcases hIH.2 x hx with hx2 | hx2
                · rw [doFetch_progressLog] at hx2
                  exact hp1 x hx2
                · exact Or.inr hx2
    · intro items repo aid k m st
      rcases hB : crawlLoop (fuel + 1) items repo aid k m st with ⟨res, stF⟩
      simp only [crawlLoop] at hB
      split at hB
      · -- items = []
        simp only [Prod.mk.injEq] at hB
        rw [← hB.2]
        exact ⟨fun q hq => Or.inl hq, fun x hx => Or.inl hx⟩
      · rename_i item rest
        split at hB
        · -- cancelled mid-loop
          simp only [Prod.mk.injEq] at hB
          rw [← hB.2]
          exact ⟨fun q hq => Or.inl hq, fun x hx => Or.inl hx⟩
        · split at hB
          · -- skipped entry
            rename_i hskip
            have hIH := ihB rest repo aid k m st
            rw [hB] at hIH
            constructor
            · intro q hq
              rcases hIH.1 q hq with hq2 | hq2
              · exact Or.inl hq2
              · right
                cases item with
                | file nm pth url sz => exact hq2
                | dir nm pth sub =>
                  simp only [RemoteEntry.name] at hskip
                  simp [fetchableLoopPaths, hskip]
                  exact hq2
            · exact hIH.2
          · -- kept entry
            rename_i hskip
            split at hB
            · -- directory
              rename_i nm pth sub
              simp only [RemoteEntry.name] at hskip
              rw [Bool.not_eq_true] at hskip
              split at hB
              · -- sub-crawl errored
                rename_i e st1 heq1
                simp only [Prod.mk.injEq] at hB
                rw [← hB.2]
                have hIH := ihA sub repo pth aid (k + 1) m st
                rw [heq1] at hIH
                constructor
                · intro q hq
                  rcases hIH.1 q hq with hq2 | hq2
                  · exact Or.inl hq2
                  · right
                    simp [fetchableLoopPaths, hskip]
                    exact Or.inl hq2
                · exact hIH.2
              · -- sub-crawl ok
                rename_i subTree st1 heq1
                split at hB
                · -- rest errored
                  rename_i e st2 heq2
                  simp only [Prod.mk.injEq] at hB
                  rw [← hB.2]
                  have hIH1 := ihA sub repo pth aid (k + 1) m st
                  rw [heq1] at hIH1
                  have hIH2 := ihB rest repo aid k m st1
                  rw [heq2] at hIH2
                  constructor
                  · intro q hq
                    rcases hIH2.1 q hq with hq2 | hq2
                    · rcases hIH1.1 q hq2 with hq3 | hq3
                      · exact Or.inl hq3
                      · right
                        simp [fetchableLoopPaths, hskip]
                        exact Or.inl hq3
                    · right
                      simp [fetchableLoopPaths, hskip]
                      exact Or.inr hq2
                  · intro x hx
                    rcases hIH2.2 x hx with hx2 | hx2
                    · exact hIH1.2 x hx2
                    · exact Or.inr hx2
                · -- rest ok
                  rename_i out st2 heq2
                  simp only [Prod.mk.injEq] at hB
                  rw [← hB.2]
                  have hIH1 := ihA sub repo pth aid (k + 1) m st
                  rw [heq1] at hIH1
                  have hIH2 := ihB rest repo aid k m st1
                  rw [heq2] at hIH2
                  constructor
                  · intro q hq
                    rcases hIH2.1 q hq with hq2 | hq2
                    · rcases hIH1.1 q hq2 with hq3 | hq3
                      · exact Or.inl hq3
                      · right
                        simp [fetchableLoopPaths, hskip]
                        exact Or.inl hq3
                    · right
                      simp [fetchableLoopPaths, hskip]
                      exact Or.inr hq2
                  · intro x hx
                    rcases hIH2.2 x hx with hx2 | hx2
                    · exact hIH1.2 x hx2
                    · exact Or.inr hx2
            · -- file
              rename_i nm pth url sz
              split at hB
              · -- rest errored
                rename_i e st2 heq2
                simp only [Prod.mk.injEq] at hB
                rw [← hB.2]
                have hIH := ihB rest repo aid k m st
                rw [heq2] at hIH
                exact ⟨fun q hq => (hIH.1 q hq).imp id id, hIH.2⟩
              · -- rest ok
                rename_i out st2 heq2
                have hst2 : stF = st2 := by
                  split at hB
                  · simp only [Prod.mk.injEq] at hB
                    exact hB.2.symm
                  · simp only [Prod.mk.injEq] at hB
                    exact hB.2.symm
                rw [hst2]
                have hIH := ihB rest repo aid k m st
                rw [heq2] at hIH
                exact ⟨fun q hq => (hIH.1 q hq).imp id id, hIH.2⟩

theorem fetchable_subset : ∀ fuel : Nat,
    (∀ listing path q, q ∈ fetchablePaths fuel listing path →
      q = path ∨ ∃ nm, (nm, q) ∈ allDirsOf fuel listing ∧ shouldSkip nm = false) ∧
    (∀ items q, q ∈ fetchableLoopPaths fuel items →
      ∃ nm, (nm, q) ∈ allDirsLoop fuel items ∧ shouldSkip nm = false) := by
  intro fuel
  induction fuel with
  | zero =>
    constructor
    · intro listing path q hq
      simp [fetchablePaths] at hq
    · intro items q hq
      simp [fetchableLoopPaths] at hq
  | succ fuel ih =>
    obtain ⟨ihA, ihB⟩ := ih
    constructor
    · intro listing path q hq
      simp only [fetchablePaths, List.mem_cons] at hq
      rcases hq with hq | hq
      · exact Or.inl hq
      · rcases listing with _ | items
        · simp at hq
        · right
          obtain ⟨nm, hmem, hns⟩ := ihB items q hq
          exact ⟨nm, by simpa [allDirsOf] using hmem, hns⟩
    · intro items q hq
      cases items with
      | nil => simp [fetchableLoopPaths] at hq
      | cons item rest =>
        cases item with
        | file nm pth url sz =>
          simp only [fetchableLoopPaths] at hq
          obtain ⟨nm2, hmem, hns⟩ := ihB rest q hq
          exact ⟨nm2, by simpa [allDirsLoop] using hmem, hns⟩
        | dir nm pth sub =>
          simp only [fetchableLoopPaths, List.mem_append] at hq
          rcases hq with hq | hq
          · by_cases hns : shouldSkip nm
            · rw [if_pos hns] at hq
              simp at hq
            · rw [if_neg hns] at hq
              rcases ihA sub pth q hq with hq2 | ⟨nm2, hmem, hns2⟩
              · subst hq2
                refine ⟨nm, ?_, by simpa using hns⟩
                simp [allDirsLoop]
              · refine ⟨nm2, ?_, hns2⟩
                simp [allDirsLoop, List.mem_append]
                right
                left
                exact hmem
          · obtain ⟨nm2, hmem, hns⟩ := ihB rest q hq
            refine ⟨nm2, ?_, hns⟩
            simp [allDirsLoop, List.mem_append]
            right
            right
            exact hmem

theorem snd_nodup_inj {l : List (String × String)} (h : (l.map Prod.snd).Nodup)
    {a b q : String} (ha : (a, q) ∈ l) (hb : (b, q) ∈ l) : a = b := by
  induction l with
  | nil => simp at ha
  | cons p rest ih =>
    simp only [List.map_cons, List.nodup_cons] at h
    rcases List.mem_cons.1 ha with ha1 | ha1 <;> rcases List.mem_cons.1 hb with hb1 | hb1
    · rw [← ha1] at hb1
      exact (Prod.mk.injEq _ _ _ _ ▸ hb1.symm).1
    · exfalso
      apply h.1
      rw [← ha1]
      simp only [List.mem_map]
      exact ⟨(b, q), hb1, rfl⟩
    · exfalso
      apply h.1
      rw [← hb1]
      simp only [List.mem_map]
      exact ⟨(a, q), ha1, rfl⟩
    · exact ih h.2 ha1 hb1

theorem isPrefixOf_append_self (l t : List Char) : l.isPrefixOf (l ++ t) = true := by
  induction l with
  | nil => simp [List.isPrefixOf]
  | cons a as ih => simp [List.isPrefixOf, ih]

theorem strStartsWith_construct (u t now : String) :
    strStartsWith (u ++ t ++ now) u = true := by
  unfold strStartsWith
  cases u with
  | mk a =>
    cases t with
    | mk b =>
      cases now with
      | mk c =>
        show a.isPrefixOf (a ++ b ++ c) = true
        rw [List.append_assoc]
        exact isPrefixOf_append_self a (b ++ c)

theorem mapGet_applyCancel (u id : String) (st : SessionMap) :
    mapGet (applyCancel u st) id = (mapGet st id).map
      (fun s => if strStartsWith id u then { s with cancelled := true } else s) := by
  induction st with
  | nil => rfl
  | cons p rest ih =>
    obtain ⟨pid, s⟩ := p
    by_cases hpid : (pid == id) = true
    · have hpe : pid = id := by simpa using hpid
      subst hpe
      by_cases hsw : strStartsWith pid u = true
      · simp [mapGet, applyCancel, List.find?, hsw]
      · simp only [Bool.not_eq_true] at hsw
        simp [mapGet, applyCancel, List.find?, hsw]
    · by_cases hsw : strStartsWith pid u = true
      · simpa [mapGet, applyCancel, List.find?, hpid, hsw] using ih
      · simp only [Bool.not_eq_true] at hsw
        simpa [mapGet, applyCancel, List.find?, hpid, hsw] using ih

theorem crawlResultAll_root (p : TreeNode → Bool) {fuel : Nat}
    {listing : Option (List RemoteEntry)} {repo path : String} {aid : Option String}
    {m : Nat} {st : CrawlState}
    (hok : ∀ items cs, listing = some items → LoopRel m 0 items cs →
      p (TreeNode.mk (if path == "" then repo else path) false none none none
        (some 0) false none cs) = true ∧ NodesOk p cs) :
    ∀ pf, crawlResultAll p pf
      (buildFileTreeWithCancellation fuel listing repo path aid 0 m st) = true := by
  intro pf
  rcases hR : buildFileTreeWithCancellation fuel listing repo path aid 0 m st
    with ⟨res, stF⟩
  cases res with
  | error e => simp [crawlResultAll]
  | ok t =>
    rcases (crawlSound fuel).1 _ _ _ _ _ _ _ _ _ hR with ⟨hm0, _⟩ |
      ⟨_, items, cs, hl, hrel, ht⟩
    · omega
    · obtain ⟨hp, hcs⟩ := hok items cs hl hrel
      subst ht
      simp only [crawlResultAll]
      exact (treeOk_mk.mpr ⟨hp, hcs⟩) pf

/-- C7: every File node present in a tree returned by the crawler carries a
size strictly below 1 MiB (1024 * 1024 bytes); a file whose upstream size is
at or above the ceiling never becomes a node. Lines 149-161 keep a file only
if `item.size && item.size < 1024 * 1024`, and the node stores that same
size, so the bound holds for every node of every successful crawl, for every
upstream listing, session state and configuration. -/
theorem C7_file_size_ceiling (fuel : Nat) (listing : Option (List RemoteEntry))
    (repo : String) (aid : Option String) (m : Nat) (st : CrawlState) (pf : Nat) :
    crawlResultAll fileSizeOkB pf
      (buildFileTreeWithCancellation fuel listing repo "" aid 0 m st) = true := by
  refine crawlResultAll_root fileSizeOkB (fun items cs hl hrel => ?_) pf
  exact ⟨by simp [fileSizeOkB, TreeNode.isFile], loopRel_fileSize hrel⟩

/-- C10: a file whose upstream-reported size is 0, or whose size field is
absent, is omitted from the returned tree even though it is below the 1 MiB
ceiling, because the check `item.size && item.size < 1024 * 1024` on line 151
requires a truthy size. First conjunct: every File node of every result has a
present, nonzero size. Second and third conjuncts: a listing containing only
a zero-size (resp. size-less) file contributes no child node at all. -/
theorem C10_zero_size_omitted :
    (∀ fuel listing repo aid m st pf,
      crawlResultAll fileSizeTruthyB pf
        (buildFileTreeWithCancellation fuel listing repo "" aid 0 m st) = true) ∧
    (∀ fuel nm pth url repo k m st,
      crawlLoop (fuel + 2) [RemoteEntry.file nm pth url (some 0)] repo none k m st =
        (.ok [], st)) ∧
    (∀ fuel nm pth url repo k m st,
      crawlLoop (fuel + 2) [RemoteEntry.file nm pth url none] repo none k m st =
        (.ok [], st)) := by
  refine ⟨fun fuel listing repo aid m st pf => ?_, fun fuel nm pth url repo k m st => ?_,
    fun fuel nm pth url repo k m st => ?_⟩
  · refine crawlResultAll_root fileSizeTruthyB (fun items cs hl hrel => ?_) pf
    exact ⟨by simp [fileSizeTruthyB, TreeNode.isFile], loopRel_fileTruthy hrel⟩
  · simp only [crawlLoop, isCancelled]
    split
    · rename_i hc
      exact absurd hc (by simp)
    · split
      · rfl
      · rfl
  · simp only [crawlLoop, isCancelled]
    split
    · rename_i hc
      exact absurd hc (by simp)
    · split
      · rfl
      · rfl

/-- C2 counterexample: crawling with `maxDepth = 1` a repository whose root
has a directory `a` containing a directory `b` returns a tree containing a
node (the truncated marker for `b`) whose `depth` field is 2, strictly
greater than `maxDepth`: the claim "no returned node has depth > d" is false
as stated. Line 79 truncates a call at `depth > maxDepth`, but line 145
labels the pushed node with `depth + 1`, which is `maxDepth + 1` for a
truncated child. -/
theorem C2_counterexample :
    crawlResultAny
      (fun t =>
        match t.depth with
        | some j => decide (1 < j)
        | none => false) 10
      (buildFileTreeWithCancellation 10
        (some [RemoteEntry.dir "a" "a" (some [RemoteEntry.dir "b" "a/b" (some [])])])
        "repo" "" none 0 1 ⟨[], 0, none, [], []⟩) = true := rfl

/-- C2 (amended): for every `maxDepth = d` and upstream listing, no returned
node has a depth field greater than `d + 1`; file nodes never exceed depth
`d`; every node at depth `d + 1` is a directory marked `truncated = true`
with an empty child sequence; and every directory whose traversal would
exceed depth `d` (a non-skipped directory entry listed by a loop running at
depth `d`) appears as exactly such a truncated node with empty children. -/
theorem C2_depth_bound_amended (fuel : Nat) (listing : Option (List RemoteEntry))
    (repo : String) (aid : Option String) (m : Nat) (st : CrawlState) :
    (∀ pf, crawlResultAll (depthOkB m) pf
      (buildFileTreeWithCancellation fuel listing repo "" aid 0 m st) = true) ∧
    (∀ fuel2 items repo2 aid2 m2 st2 cs st2' nm pth sub,
      crawlLoop fuel2 items repo2 aid2 m2 m2 st2 = (.ok cs, st2') →
      RemoteEntry.dir nm pth sub ∈ items → shouldSkip nm = false →
      TreeNode.mk nm false (some pth) none none (some (m2 + 1)) true
        (some ("Maximum depth (" ++ toString m2 ++ ") reached")) [] ∈ cs) := by
  constructor
  · refine crawlResultAll_root (depthOkB m) (fun items cs hl hrel => ?_)
    constructor
    · simp [depthOkB, TreeNode.depth, TreeNode.isFile, TreeNode.truncated,
        TreeNode.children]
    · exact loopRel_depthOk hrel (by omega)
  · intro fuel2 items repo2 aid2 m2 st2 cs st2' nm pth sub heq he hns
    have hrel := (crawlSound fuel2).2 _ _ _ _ _ _ _ _ heq
    exact loopRel_truncAppears hrel nm pth sub he hns (by omega)

/-- C3 counterexample: crawling a repository whose root contains one file of
size 5 yields a root node at depth 0 whose file child also has depth 0, not
1: line 158 labels a file node with the current `depth`, while line 145
labels directory children with `depth + 1`, so "depth of every child =
parent depth + 1" is false as stated. -/
theorem C3_counterexample :
    crawlResultAny
      (fun t => t.children.any
        (fun c => !(c.depth == t.depth.map (fun j => j + 1)))) 10
      (buildFileTreeWithCancellation 10
        (some [RemoteEntry.file "f" "f" "u" (some 5)])
        "repo" "" none 0 5 ⟨[], 0, none, [], []⟩) = true := rfl

/-- C3 (amended): in every tree returned by the crawler, the depth field of a
directory child equals its parent's depth plus one, while the depth field of
a file child equals its parent's depth (not plus one): files are pushed with
`depth: depth` on line 158, directories with `depth: depth + 1` on
line 145. -/
theorem C3_child_depth_amended (fuel : Nat) (listing : Option (List RemoteEntry))
    (repo : String) (aid : Option String) (m : Nat) (st : CrawlState) (pf : Nat) :
    crawlResultAll childDepthOkB pf
      (buildFileTreeWithCancellation fuel listing repo "" aid 0 m st) = true := by
  refine crawlResultAll_root childDepthOkB (fun items cs hl hrel => ?_) pf
  obtain ⟨hall, hdep⟩ := loopRel_childDepth hrel
  refine ⟨?_, hall⟩
  simp only [childDepthOkB, TreeNode.children, TreeNode.depth, List.all_eq_true]
  intro c hc
  have hd := hdep c hc
  cases c with
  | mk cn cf cp cu csz cd ct cmsg cch =>
    simp only [TreeNode.depth, TreeNode.isFile] at hd
    cases cf with
    | true =>
      simp at hd
      simp [TreeNode.isFile, TreeNode.depth, hd]
    | false =>
      simp at hd
      simp [TreeNode.isFile, TreeNode.depth, hd]

/-- C6: for every entry whose name matches a skip pattern (exact name or
wildcard, lines 104-127), no node with that name appears anywhere in the
returned tree, and no directory-listing fetch is ever issued for the path of
a matched directory. Hypotheses: the repository's own name (which becomes
the root node's name) matches no skip pattern, and the directory paths of
the remote tree are pairwise distinct and different from the root path `""`
(as is the case for a real repository). The first conjunct says no node of
the result has a name matching a skip pattern, so in particular no matched
entry contributes a node; the second says the path of a matched directory
entry is never fetched. -/
theorem C6_skip_patterns (fuel : Nat) (items : List RemoteEntry) (repo : String)
    (aid : Option String) (m : Nat) (sess : SessionMap) (n : Nat)
    (pending : Option (Nat × String)) (plog : List (Nat × Nat))
    (hrepo : shouldSkip repo = false)
    (hsep : ("" :: (allDirsOf fuel (some items)).map Prod.snd).Nodup) :
    (∀ pf, crawlResultAll nameOkB pf
      (buildFileTreeWithCancellation fuel (some items) repo "" aid 0 m
        ⟨sess, n, pending, [], plog⟩) = true) ∧
    (∀ nm pth, (nm, pth) ∈ allDirsOf fuel (some items) → shouldSkip nm = true →
      pth ∉ (buildFileTreeWithCancellation fuel (some items) repo "" aid 0 m
        ⟨sess, n, pending, [], plog⟩).2.fetched) := by
  constructor
  · refine crawlResultAll_root nameOkB (fun items2 cs hl hrel => ?_)
    refine ⟨?_, loopRel_names hrel⟩
    simp [nameOkB, TreeNode.name, hrepo]
  · intro nm pth hd hskip hq
    have hstate := ((crawlState fuel).1 (some items) repo "" aid 0 m
      ⟨sess, n, pending, [], plog⟩).1 pth hq
    rcases hstate with hq2 | hq2
    · simp at hq2
    · rcases ((fetchable_subset fuel).1 (some items) "" pth hq2) with hq3 |
        ⟨nm2, hd2, hns2⟩
      · subst hq3
        have hmm2 : "" ∈ (allDirsOf fuel (some items)).map Prod.snd :=
          List.mem_map.mpr ⟨(nm, ""), hd, rfl⟩
        exact (List.nodup_cons.1 hsep).1 hmm2
      · have hnm : nm = nm2 :=
          snd_nodup_inj (List.nodup_cons.1 hsep).2 hd hd2
        rw [← hnm] at hns2
        rw [hskip] at hns2
        exact Bool.true_eq_false.mp hns2

theorem analyze_progressLog_mem (fuel : Nat) (env : Option (List RemoteEntry))
    (repo user now : String) (raw : Option Int) (pending : Option (Nat × String))
    (st0 : SessionMap) :
    ∀ x, x ∈ (analyze fuel env repo user now raw pending st0).progressLog →
      x.2 = jsProgress x.1 (clampDepth raw) ∧ 1 ≤ x.1 := by
  intro x hx
  unfold analyze at hx
  simp only [] at hx
  rcases hB : buildFileTreeWithCancellation fuel env repo "" (some (user ++ "-" ++ now))
    0 (clampDepth raw)
    ⟨mapSet st0 (user ++ "-" ++ now) ⟨false, 0, 0, ""⟩, 0, pending, [], []⟩
    with ⟨res, stF⟩
  rw [hB] at hx
  have hstate := ((crawlState fuel).1 env repo "" (some (user ++ "-" ++ now))
    0 (clampDepth raw)
    ⟨mapSet st0 (user ++ "-" ++ now) ⟨false, 0, 0, ""⟩, 0, pending, [], []⟩).2 x
  rw [hB] at hstate
  cases res with
  | error e =>
    simp only [] at hx
    rcases hstate hx with hc | hc
    · simp at hc
    · exact hc
  | ok t =>
    simp only [] at hx
    split at hx
    · rcases hstate hx with hc | hc
      · simp at hc
      · exact hc
    · rcases hstate hx with hc | hc
      · simp at hc
      · exact hc

/-- C9: for every recursive crawl call at `depth ≥ 1` with a session present,
the `progress` stored in the session (lines 69-75) equals
`min(100, round(100 * depth / maxDepth))`, where `maxDepth` is the clamped
bound the /analyze route passes to the crawler: every `(depth, progress)`
pair the crawl writes satisfies the formula, with `round` the half-up
rounding `(200 * d + m) / (2 * m)` in integer arithmetic. -/
theorem C9_progress_formula (fuel : Nat) (env : Option (List RemoteEntry))
    (repo user now : String) (raw : Option Int) (pending : Option (Nat × String))
    (st0 : SessionMap) :
    ∀ d p, (d, p) ∈ (analyze fuel env repo user now raw pending st0).progressLog →
      p = min 100 ((200 * d + clampDepth raw) / (2 * clampDepth raw)) ∧ 1 ≤ d := by
  intro d p hmem
  obtain ⟨h1, h2⟩ := analyze_progressLog_mem fuel env repo user now raw pending st0
    (d, p) hmem
  have h1' : p = jsProgress d (clampDepth raw) := h1
  have h2' : 1 ≤ d := h2
  refine ⟨?_, h2'⟩
  rw [h1']
  exact jsProgress_eq_min (clampDepth_pos raw)

/-- C4 counterexample: one /analyze request over a root listing with a nested
directory followed by a sibling directory writes the progress sequence
10, 20, 10 (depths 1, 2, 1): the written `progressPercent` values are not a
non-decreasing sequence, refuting the claim as stated. The progress written
on lines 69-75 follows the current depth of the depth-first walk, which
drops back when the walk returns to a shallower sibling. -/
theorem C4_counterexample :
    isNonDecr (((analyze 10
      (some [RemoteEntry.dir "a" "a" (some [RemoteEntry.dir "b" "a/b" (some [])]),
             RemoteEntry.dir "c" "c" (some [])])
      "repo" "u" "1" (some 10) none []).progressLog).map Prod.snd) = false := rfl

/-- C4 (amended): each progress value written during a crawl equals
`jsProgress depth maxDepth` for the depth at which it was written (depth at
least 1), and that formula is monotonically non-decreasing in the depth and
saturates at 100 — but across one crawl successive writes can decrease when
the depth-first walk returns to a shallower directory, so the sequence of
`QueryProgress` snapshots need not be non-decreasing. -/
theorem C4_progress_monotone_amended (fuel : Nat) (env : Option (List RemoteEntry))
    (repo user now : String) (raw : Option Int) (pending : Option (Nat × String))
    (st0 : SessionMap) :
    (∀ d p, (d, p) ∈ (analyze fuel env repo user now raw pending st0).progressLog →
      p = jsProgress d (clampDepth raw) ∧ 1 ≤ d) ∧
    (∀ d1 d2, d1 ≤ d2 →
      jsProgress d1 (clampDepth raw) ≤ jsProgress d2 (clampDepth raw)) ∧
    (∀ d, jsProgress d (clampDepth raw) ≤ 100) :=
  ⟨fun d p h => analyze_progressLog_mem fuel env repo user now raw pending st0 (d, p) h,
   fun _ _ h => jsProgress_mono h,
   fun d => jsProgress_le_100 d (clampDepth raw)⟩

/-- C1 (code bug): a crawl whose session is cancelled while the crawl is in
progress does not produce the distinct 499 Cancelled outcome. If the
cancellation is observed at a cancellation check (first scenario: the cancel
request is processed during the first upstream fetch), the crawler throws,
the generic catch of lines 218-224 answers 500 "Failed to analyze
repository" — the 499 branch on lines 204-207 is dead because line 202
deletes the session before it — and `Repository.create` is not invoked while
the session (with its cancelled flag set) leaks in the registry. If the
cancellation arrives during the last fetch (second scenario), no check ever
observes it: the crawl completes, the response is the plain 200 success and
`Repository.create` IS invoked for the cancelled crawl. -/
theorem C1_cancellation_outcome_bug :
    (analyze 10 (some [RemoteEntry.dir "a" "a" (some [])]) "repo" "u" "1" (some 10)
      (some (1, "u")) []).response =
      .serverError "Failed to analyze repository"
        "GitHub API error: Analysis cancelled by user" ∧
    (analyze 10 (some [RemoteEntry.dir "a" "a" (some [])]) "repo" "u" "1" (some 10)
      (some (1, "u")) []).createCalled = false ∧
    mapGet (analyze 10 (some [RemoteEntry.dir "a" "a" (some [])]) "repo" "u" "1"
      (some 10) (some (1, "u")) []).sessions ("u" ++ "-" ++ "1") =
      some ⟨true, 0, 0, ""⟩ ∧
    (analyze 10 (some [RemoteEntry.dir "a" "a" (some [])]) "repo" "u" "1" (some 10)
      (some (2, "u")) []).response.isSuccess = true ∧
    (analyze 10 (some [RemoteEntry.dir "a" "a" (some [])]) "repo" "u" "1" (some 10)
      (some (2, "u")) []).createCalled = true ∧
    (analyze 10 (some [RemoteEntry.dir "a" "a" (some [])]) "repo" "u" "1" (some 10)
      (some (2, "u")) []).response.isCancelledOutcome = false :=
  ⟨rfl, rfl, rfl, rfl, rfl, rfl⟩

/-- C5 (code bug): the session entry is removed from `activeAnalyses` only on
the success path (line 202). On the fetch-error path the generic catch of
lines 218-224 answers without deleting, so the session leaks: after a failed
crawl the registry still holds the entry, while a successful crawl leaves
the registry empty. -/
theorem C5_session_leak_bug :
    (analyze 10 none "repo" "u" "1" (some 10) none []).response =
      .serverError "Failed to analyze repository" "GitHub API error: Network Error" ∧
    mapGet (analyze 10 none "repo" "u" "1" (some 10) none []).sessions
      ("u" ++ "-" ++ "1") = some ⟨false, 0, 0, ""⟩ ∧
    (analyze 10 (some [RemoteEntry.file "f" "f" "u2" (some 5)]) "repo" "u" "1"
      (some 10) none []).sessions = [] :=
  ⟨rfl, rfl, rfl⟩

/-- C8 counterexample: the /analyze/cancel handler matches sessions with
`id.startsWith(req.user.id)` (line 234). A session created by caller "12"
has id `"12" ++ "-" ++ "100"`, which starts with the string "1", so a cancel
request by the distinct caller "1" also sets `cancelled = true` on caller
"12"'s session: sessions of other caller identities are not left
unchanged. -/
theorem C8_counterexample :
    mapGet (cancelRoute "1" [("1" ++ "-" ++ "100", ⟨false, 0, 0, ""⟩),
        ("12" ++ "-" ++ "100", ⟨false, 0, 0, ""⟩)]) ("12" ++ "-" ++ "100") =
      some ⟨true, 0, 0, ""⟩ ∧ ("12" : String) ≠ "1" :=
  ⟨rfl, by decide⟩

/-- C8 (amended): the cancel route sets `cancelled = true` on every live
session whose id starts with the requesting caller's identity string — in
particular on every session that caller created (ids are built as
`user ++ "-" ++ timestamp` on line 195) — and leaves every session whose id
does not start with that string unchanged. Sessions of a different caller
are only affected when their id happens to begin with the requester's
identity string. -/
theorem C8_cancel_startsWith_frame (u t : String) (st : SessionMap) (s : Session)
    (h : mapGet st (u ++ "-" ++ t) = some s) :
    mapGet (cancelRoute u st) (u ++ "-" ++ t) = some { s with cancelled := true } ∧
    ∀ id s2, mapGet st id = some s2 → strStartsWith id u = false →
      mapGet (cancelRoute u st) id = some s2 := by
  constructor
  · unfold cancelRoute
    rw [mapGet_applyCancel, h]
    simp [strStartsWith_construct]
  · intro id s2 h2 hsw
    unfold cancelRoute
    rw [mapGet_applyCancel, h2]
    simp [hsw]

/-- Concrete remote tree used by the C6 witness: a skipped directory (with a
nested inner directory) next to an ordinary one. -/
def c6Items : List RemoteEntry :=
  [RemoteEntry.dir "node_modules" "node_modules"
      (some [RemoteEntry.dir "x" "node_modules/x" (some [])]),
   RemoteEntry.dir "src" "src" (some [])]

theorem C2_depth_bound_amended_witness :
    (∀ pf, crawlResultAll (depthOkB 1) pf
      (buildFileTreeWithCancellation 10
        (some [RemoteEntry.dir "a" "a" (some [RemoteEntry.dir "b" "a/b" (some [])])])
        "repo" "" none 0 1 ⟨[], 0, none, [], []⟩) = true) ∧
    TreeNode.mk "b" false (some "a/b") none none (some 2) true
      (some ("Maximum depth (" ++ toString 1 ++ ") reached")) [] ∈
      [TreeNode.mk "b" false (some "a/b") none none (some 2) true
        (some ("Maximum depth (" ++ toString 1 ++ ") reached")) []] :=
  ⟨(C2_depth_bound_amended 10
      (some [RemoteEntry.dir "a" "a" (some [RemoteEntry.dir "b" "a/b" (some [])])])
      "repo" none 1 ⟨[], 0, none, [], []⟩).1,
   (C2_depth_bound_amended 10
      (some [RemoteEntry.dir "a" "a" (some [RemoteEntry.dir "b" "a/b" (some [])])])
      "repo" none 1 ⟨[], 0, none, [], []⟩).2
     10 [RemoteEntry.dir "b" "a/b" (some [])] "repo" none 1 ⟨[], 0, none, [], []⟩
     [TreeNode.mk "b" false (some "a/b") none none (some 2) true
       (some ("Maximum depth (" ++ toString 1 ++ ") reached")) []]
     ⟨[], 0, none, [], []⟩ "b" "a/b" (some []) rfl (by simp) rfl⟩

theorem C6_skip_patterns_witness :
    shouldSkip "repo" = false ∧
    ("" :: (allDirsOf 10 (some c6Items)).map Prod.snd).Nodup ∧
    ((∀ pf, crawlResultAll nameOkB pf
      (buildFileTreeWithCancellation 10 (some c6Items) "repo" "" none 0 5
        ⟨[], 0, none, [], []⟩) = true) ∧
    (∀ nm pth, (nm, pth) ∈ allDirsOf 10 (some c6Items) → shouldSkip nm = true →
      pth ∉ (buildFileTreeWithCancellation 10 (some c6Items) "repo" "" none 0 5
        ⟨[], 0, none, [], []⟩).2.fetched)) :=
  ⟨by decide, by decide,
   C6_skip_patterns 10 c6Items "repo" none 5 [] 0 none [] (by decide) (by decide)⟩

theorem C9_progress_formula_witness :
    (1, 10) ∈ (analyze 10 (some [RemoteEntry.dir "a" "a" (some [])]) "repo" "u" "1"
      (some 10) none []).progressLog ∧
    (10 = min 100 ((200 * 1 + clampDepth (some 10)) / (2 * clampDepth (some 10))) ∧
      1 ≤ 1) :=
  ⟨by decide,
   C9_progress_formula 10 (some [RemoteEntry.dir "a" "a" (some [])]) "repo" "u" "1"
     (some 10) none [] 1 10 (by decide)⟩

theorem C4_progress_monotone_amended_witness :
    (10 = jsProgress 1 (clampDepth (some 10)) ∧ 1 ≤ 1) ∧
    jsProgress 1 (clampDepth (some 10)) ≤ jsProgress 2 (clampDepth (some 10)) ∧
    jsProgress 7 (clampDepth (some 10)) ≤ 100 :=
  ⟨(C4_progress_monotone_amended 10
      (some [RemoteEntry.dir "a" "a" (some [RemoteEntry.dir "b" "a/b" (some [])]),
             RemoteEntry.dir "c" "c" (some [])])
      "repo" "u" "1" (some 10) none []).1 1 10 (by decide),
   (C4_progress_monotone_amended 10
      (some [RemoteEntry.dir "a" "a" (some [RemoteEntry.dir "b" "a/b" (some [])]),
             RemoteEntry.dir "c" "c" (some [])])
      "repo" "u" "1" (some 10) none []).2.1 1 2 (by decide),
   (C4_progress_monotone_amended 10
      (some [RemoteEntry.dir "a" "a" (some [RemoteEntry.dir "b" "a/b" (some [])]),
             RemoteEntry.dir "c" "c" (some [])])
      "repo" "u" "1" (some 10) none []).2.2 7⟩

theorem C8_cancel_startsWith_frame_witness :
    mapGet (cancelRoute "u" [("u" ++ "-" ++ "1", ⟨false, 0, 0, ""⟩),
        ("v-2", ⟨false, 0, 0, ""⟩)]) ("u" ++ "-" ++ "1") = some ⟨true, 0, 0, ""⟩ ∧
    mapGet (cancelRoute "u" [("u" ++ "-" ++ "1", ⟨false, 0, 0, ""⟩),
        ("v-2", ⟨false, 0, 0, ""⟩)]) "v-2" = some ⟨false, 0, 0, ""⟩ :=
  ⟨(C8_cancel_startsWith_frame "u" "1"
      [("u" ++ "-" ++ "1", ⟨false, 0, 0, ""⟩), ("v-2", ⟨false, 0, 0, ""⟩)]
      ⟨false, 0, 0, ""⟩ (by decide)).1,
   (C8_cancel_startsWith_frame "u" "1"
      [("u" ++ "-" ++ "1", ⟨false, 0, 0, ""⟩), ("v-2", ⟨false, 0, 0, ""⟩)]
      ⟨false, 0, 0, ""⟩ (by decide)).2 "v-2" ⟨false, 0, 0, ""⟩ (by decide) (by decide)⟩
